import Mathlib

/-!
# Verification of the `naval` battleship engine

A shallow embedding, in Lean 4, of the game-logic core of the `naval`
repository: the cell/coordinate model and label parsing (`src/engine/grid.rs`),
ships, fleets and overlap checking (`src/ship.rs`), the targeting strategies
(`src/engine/strategy.rs`), the player (`src/engine/player.rs`) and the turn
engine (`src/engine/game.rs`).

Machine integers (`u8`) are modelled as `Nat` with explicit `% 256` / masking
where the Rust semantics makes it observable.  Randomness (`rand::random::<u8>`)
is modelled as an ambient byte stream `r : Nat → Nat` together with a position
index: the `i`-th byte drawn is `r i % 256`.  Rust's unbounded search loops are
modelled with explicit fuel and an `Option` result (`none` = fuel exhausted).
-/

namespace Naval

/-- Decidable equality for `Except`, used to evaluate results of the fallible
operations on concrete inputs. -/
instance {ε α : Type} [DecidableEq ε] [DecidableEq α] : DecidableEq (Except ε α) :=
  fun a b =>
    match a, b with
    | .error e, .error f =>
      decidable_of_iff (e = f) ⟨fun h => h ▸ rfl, fun h => by injection h⟩
    | .ok x, .ok y =>
      decidable_of_iff (x = y) ⟨fun h => h ▸ rfl, fun h => by injection h⟩
    | .error _, .ok _ => isFalse fun h => by injection h
    | .ok _, .error _ => isFalse fun h => by injection h

/-- Error type of `engine/grid.rs` (`enum Error`). -/
inductive GridError where
  | invalidX (x : Nat)
  | invalidY (y : Nat)
  | invalidCoordinates (x y : Nat)
  | invalidFormat (s : List Char)
  deriving DecidableEq, Repr

/-- Embeds `Cell` from `engine/grid.rs`: an (x, y) pair of `u8` coordinates.
The fields are kept as `Nat`; every operation mirrors the `u8` arithmetic
of the source. -/
structure Cell where
  x : Nat
  y : Nat
  deriving DecidableEq, Repr

/-- Embeds `Cell::MAX_X` (= 9). -/
def maxX : Nat := 9

/-- Embeds `Cell::MAX_Y` (= 9). -/
def maxY : Nat := 9

/-- Embeds `Cell::new(x, y)`: strict constructor, errors when a coordinate exceeds 9. -/
def cellNew (x y : Nat) : Except GridError Cell :=
  if x > maxX then
    if y > maxY then .error (.invalidCoordinates x y) else .error (.invalidX x)
  else if y > maxY then .error (.invalidY y)
  else .ok ⟨x, y⟩

/-- Embeds `Cell::bounded(x, y)`: clamps both coordinates to 9 with `min`. -/
def cellBounded (x y : Nat) : Cell :=
  ⟨min x maxX, min y maxY⟩

/-- Lemma: `Cell::bounded` is the identity on in-range coordinates. -/
theorem cellBounded_of_le {x y : Nat} (hx : x ≤ 9) (hy : y ≤ 9) :
    cellBounded x y = ⟨x, y⟩ := by
  unfold cellBounded maxX maxY
  rw [min_eq_left hx, min_eq_left hy]

/-- Lemma: `Cell::bounded` always lands on the board. -/
theorem cellBounded_le (x y : Nat) :
    (cellBounded x y).x ≤ 9 ∧ (cellBounded x y).y ≤ 9 :=
  ⟨min_le_right _ _, min_le_right _ _⟩

/-- Embeds `Cell::random()`: draws two `u8`s from the random source and reduces each
with `% Cell::MAX_X` resp. `% Cell::MAX_Y` — i.e. modulo 9, exactly as the
source does (`rand::random::<u8>() % Self::MAX_X`).  Consumes the bytes at
positions `i` and `i + 1` of the stream. -/
def cellRandomAt (r : Nat → Nat) (i : Nat) : Cell :=
  ⟨(r i % 256) % maxX, (r (i + 1) % 256) % maxY⟩

/-- Embeds `Cell::move_left`: `x.checked_sub(1).unwrap_or(MAX_X)`. -/
def moveLeft (c : Cell) : Cell :=
  if c.x = 0 then ⟨maxX, c.y⟩ else ⟨c.x - 1, c.y⟩

/-- Embeds `Cell::move_right`: wraps from `MAX_X` to 0, otherwise `saturating_add(1)`
(at 255 the `u8` saturates). -/
def moveRight (c : Cell) : Cell :=
  if c.x = maxX then ⟨0, c.y⟩ else ⟨min (c.x + 1) 255, c.y⟩

/-- Embeds `Cell::move_up`: `y.checked_sub(1).unwrap_or(MAX_Y)`. -/
def moveUp (c : Cell) : Cell :=
  if c.y = 0 then ⟨c.x, maxY⟩ else ⟨c.x, c.y - 1⟩

/-- Embeds `Cell::move_down`: wraps from `MAX_Y` to 0, otherwise `saturating_add(1)`. -/
def moveDown (c : Cell) : Cell :=
  if c.y = maxY then ⟨c.x, 0⟩ else ⟨c.x, min (c.y + 1) 255⟩

/-! ## Label parsing (`Cell::from_str`, `Display for Cell`) -/

/-- Embeds `char::is_ascii_alphabetic`. -/
def isAsciiAlphabetic (c : Char) : Bool :=
  (65 ≤ c.toNat && c.toNat ≤ 90) || (97 ≤ c.toNat && c.toNat ≤ 122)

/-- Embeds `char::to_ascii_uppercase` followed by `as u8` (truncation to 8 bits). -/
def toUpperU8 (c : Char) : Nat :=
  (if 97 ≤ c.toNat && c.toNat ≤ 122 then c.toNat - 32 else c.toNat) % 256

/-- One step of Rust's decimal `u8` accumulation with overflow check:
`acc * 10 + digit` must stay below 256. -/
def parseDigits : List Char → Nat → Option Nat
  | [], acc => some acc
  | c :: cs, acc =>
    if 48 ≤ c.toNat && c.toNat ≤ 57 then
      let acc' := acc * 10 + (c.toNat - 48)
      if acc' ≤ 255 then parseDigits cs acc' else none
    else none

/-- Embeds `str::parse::<u8>()`: an optional leading `'+'` (a `'-'` is rejected for an
unsigned type), then one or more ASCII digits, with overflow above 255
rejected.  This mirrors `core::num::from_str_radix` for `u8`. -/
def parseU8 : List Char → Option Nat
  | [] => none
  | c :: cs =>
    if c = '+' then
      match cs with
      | [] => none
      | _ => parseDigits cs 0
    else parseDigits (c :: cs) 0

/-- Embeds `Cell::from_str` (`impl FromStr for Cell` in `engine/grid.rs`):
take the first character, uppercase it as a `u8`, parse the remainder as a
`u8`, then validate: the first character must be ASCII alphabetic, its offset
from `'A'` at most `MAX_Y`, and the number in `1..=10`.  On success the cell is
built with `Cell::bounded(x - b'A', y - 1)`; every failure is
`Error::InvalidFormat` carrying the original text. -/
def cellFromStr (s : List Char) : Except GridError Cell :=
  match s with
  | [] => .error (.invalidFormat s)
  | xc :: rest =>
    let x := toUpperU8 xc
    match parseU8 rest with
    | none => .error (.invalidFormat s)
    | some y =>
      if ¬ isAsciiAlphabetic xc || (x - 65) > maxY || y = 0 || (y - 1) > maxY then
        .error (.invalidFormat s)
      else
        .ok (cellBounded (x - 65) (y - 1))

/-- Decimal digits of a `u8` value (`Display` for `u8` values up to 255),
most significant first, no leading zeros. -/
def natDecimal (n : Nat) : List Char :=
  if n < 10 then [Char.ofNat (48 + n)]
  else if n < 100 then [Char.ofNat (48 + n / 10), Char.ofNat (48 + n % 10)]
  else [Char.ofNat (48 + n / 100), Char.ofNat (48 + n / 10 % 10), Char.ofNat (48 + n % 10)]

/-- Embeds `Display for Cell`: the letter `(x + b'A') as char` followed by `y + 1`
in decimal. -/
def formatCell (c : Cell) : List Char :=
  Char.ofNat (c.x + 65) :: natDecimal (c.y + 1)

/-! ## Grid (`engine/grid.rs`) -/

/-- Embeds `CellState` from `engine/grid.rs`. -/
inductive CellState where
  | empty
  | occupied
  | miss
  | hit
  deriving DecidableEq, Repr

/-- Embeds `Grid`: the `[[CellState; 10]; 10]` matrix, row-major (`cells[y][x]`),
modelled as a list of rows. -/
structure Grid where
  cells : List (List CellState)
  deriving DecidableEq, Repr

/-- The grid dimensions invariant carried by the Rust array type. -/
def gridWF (g : Grid) : Prop :=
  g.cells.length = 10 ∧ ∀ row ∈ g.cells, row.length = 10

instance (g : Grid) : Decidable (gridWF g) := by
  unfold gridWF; infer_instance

/-- Embeds `Grid::default()`: all cells empty. -/
def defaultGrid : Grid :=
  ⟨List.replicate 10 (List.replicate 10 .empty)⟩

/-- Embeds `Grid::at(cell)`: read `cells[y][x]`.  The Rust indexing would panic out of
bounds; the model returns `none` there. -/
def gridAt? (g : Grid) (c : Cell) : Option CellState :=
  (g.cells[c.y]?).bind fun row => row[c.x]?

/-- Embeds `Grid::mark(cell, state)`: overwrite `cells[y][x]`.  `List.set` out of
bounds is the identity; the in-bounds cases coincide with the source. -/
def gridMark (g : Grid) (c : Cell) (st : CellState) : Grid :=
  ⟨match g.cells[c.y]? with
   | some row => g.cells.set c.y (row.set c.x st)
   | none => g.cells⟩

/-! ## Ships (`src/ship.rs`) -/

/-- Embeds `ShipOrientation`. -/
inductive ShipOrient where
  | horizontal
  | vertical
  deriving DecidableEq, Repr

/-- Embeds `ShipKind`. -/
inductive ShipKind where
  | aircraftCarrier
  | battleship
  | cruiser
  | submarine
  | destroyer
  deriving DecidableEq, Repr

/-- Embeds `ShipKind::size`. -/
def ShipKind.size : ShipKind → Nat
  | .aircraftCarrier => 5
  | .battleship => 4
  | .cruiser => 3
  | .submarine => 3
  | .destroyer => 2

/-- Embeds `Ship`: origin cell, size, orientation and the damage bitmask `state`
(one bit per segment, 1 = intact). -/
structure Ship where
  first : Cell
  size : Nat
  orient : ShipOrient
  state : Nat
  deriving DecidableEq, Repr

/-- Embeds `get_ship_state(size)`: the loop `state |= 2^i` for `i in 0..size`. -/
def getShipState (size : Nat) : Nat :=
  (List.range size).foldl (fun st i => st ||| 2 ^ i) 0

/-- Embeds `Ship::new`: the ship fits iff the coordinate along the orientation axis
plus `size - 1` stays within 9 (and the cross coordinate is within 9). -/
def shipNew (size : Nat) (first : Cell) (orient : ShipOrient) : Option Ship :=
  let long := match orient with
    | .horizontal => first.x
    | .vertical => first.y
  let short := match orient with
    | .horizontal => first.y
    | .vertical => first.x
  if long ≤ 9 ∧ long + size - 1 ≤ 9 ∧ short ≤ 9 then
    some ⟨first, size, orient, getShipState size⟩
  else none

/-- Embeds `ShipKind::ship(first, orientation)`. -/
def kindShip (k : ShipKind) (first : Cell) (o : ShipOrient) : Option Ship :=
  shipNew k.size first o

/-- Embeds `Ship::occupied_cells()`: the `size` consecutive cells from the origin
along the orientation axis, built with `Cell::bounded` as in the source. -/
def occupiedCells (s : Ship) : List Cell :=
  match s.orient with
  | .horizontal => (List.range s.size).map fun dx => cellBounded (s.first.x + dx) s.first.y
  | .vertical => (List.range s.size).map fun dy => cellBounded s.first.x (s.first.y + dy)

/-- Embeds `Ship::contains(cell)`: the segment index of `cell` on the footprint, if
any. -/
def shipContains (s : Ship) (c : Cell) : Option Nat :=
  match s.orient with
  | .horizontal =>
    if s.first.y = c.y ∧ s.first.x ≤ c.x ∧ c.x < s.first.x + s.size then
      some (c.x - s.first.x)
    else none
  | .vertical =>
    if s.first.x = c.x ∧ s.first.y ≤ c.y ∧ c.y < s.first.y + s.size then
      some (c.y - s.first.y)
    else none

/-- Embeds `Ship::hit_at(cell)`: when the cell is on the footprint, clear its bit
(`state &= !(1u8 << bit)`, i.e. AND with the 8-bit complement) and return
`true`; otherwise return `false` and leave the ship unchanged. -/
def hitAt (s : Ship) (c : Cell) : Bool × Ship :=
  match shipContains s c with
  | some bit => (true, { s with state := s.state &&& (255 ^^^ (1 <<< bit)) })
  | none => (false, s)

/-- Embeds `Ship::is_sunk()`: the bitmask is zero. -/
def isSunk (s : Ship) : Bool :=
  s.state = 0

/-- Embeds `Ship::is_overlapping(other)`: scan the rectangle
`[x_start ..= x_end] × [y_start ..= y_end]` computed by the source —
along the orientation axis it runs from `first - 1` (saturating) to
`min (first + size + 1) 9`, across it from `first - 1` (saturating) to
`min (first + 1) 9` — and report whether `other.contains` holds somewhere
on it. -/
def isOverlapping (s other : Ship) : Bool :=
  let (xs, xe, ys, ye) := match s.orient with
    | .horizontal =>
      (s.first.x - 1, min (s.first.x + s.size + 1) 9,
       s.first.y - 1, min (s.first.y + 1) 9)
    | .vertical =>
      (s.first.x - 1, min (s.first.x + 1) 9,
       s.first.y - 1, min (s.first.y + s.size + 1) 9)
  (List.range (xe + 1 - xs)).any fun dx =>
    (List.range (ye + 1 - ys)).any fun dy =>
      (shipContains other (cellBounded (xs + dx) (ys + dy))).isSome

/-- Embeds `Fleet::COMPOSITION`: the canonical kind order of the five ships. -/
def composition : List ShipKind :=
  [.aircraftCarrier, .battleship, .cruiser, .submarine, .destroyer]

/-- Embeds `Fleet::hit_at(cell)`: `position(|ship| ship.hit_at(cell))` — try each ship
in order (a miss leaves a ship unchanged), stop at the first that reports a
hit; the result is the index of that ship. -/
def fleetHitAt : List Ship → Cell → Option Nat × List Ship
  | [], _ => (none, [])
  | s :: rest, c =>
    let (hit, s') := hitAt s c
    if hit then (some 0, s' :: rest)
    else
      let (i, rest') := fleetHitAt rest c
      (i.map (· + 1), s' :: rest')

/-- Embeds `Fleet::is_sunk()`: every ship is sunk. -/
def fleetIsSunk (ships : List Ship) : Bool :=
  ships.all isSunk

/-! ## Strategies (`engine/strategy.rs`) -/

/-- The closed set of `Strategy` implementations attached to players:
`NoStrategy` (the human), `RandomStrategy` and `SmartStrategy` with its
move history and candidate stack (in `Vec` order: pushes and pops happen at
the end of the list). -/
inductive Strategy where
  | noStrategy
  | randomStrategy
  | smartStrategy (moves : List Cell) (candidates : List Cell)
  deriving DecidableEq, Repr

/-- Embeds `Vec::pop`: remove and return the last element. -/
def vecPop (l : List Cell) : Option (Cell × List Cell) :=
  match l.reverse with
  | [] => none
  | c :: rest => some (c, rest.reverse)

/-- Embeds `SmartStrategy::next_move` loop body: pop the candidate stack, falling back
to `Cell::random()` when it is empty, until a cell not already in `moves` is
found; record it in `moves`.  Returns the chosen cell, the updated history and
stack, and the new stream position; `none` when the fuel runs out. -/
def smartNext (r : Nat → Nat) :
    Nat → List Cell → List Cell → Nat → Option (Cell × List Cell × List Cell × Nat)
  | 0, _, _, _ => none
  | fuel + 1, moves, cands, i =>
    match vecPop cands with
    | some (c, rest) =>
      if c ∈ moves then smartNext r fuel moves rest i
      else some (c, moves ++ [c], rest, i)
    | none =>
      let c := cellRandomAt r i
      if c ∈ moves then smartNext r fuel moves cands (i + 2)
      else some (c, moves ++ [c], cands, i + 2)

/-- Embeds `SmartStrategy::notify_hit(kind)`: radiate from the last move out to
`size - 1` cells in the four axis directions, keeping only on-board cells not
already tried, and extend the candidate stack with them (in the source's
generation order).  When the move history is empty the source would panic
(`unwrap` on `last()`); the stack is returned unchanged in that case. -/
def smartNotifyHit (k : ShipKind) (moves cands : List Cell) : List Cell :=
  match moves.getLast? with
  | none => cands
  | some last =>
    let push := fun (acc : List Cell) (cx cy : Nat) =>
      match cellNew cx cy with
      | .ok cell => if cell ∉ moves then acc ++ [cell] else acc
      | .error _ => acc
    let news := (List.range (k.size - 1)).foldl
      (fun acc j =>
        let i := j + 1
        let acc := if last.x + i < 10 then push acc (last.x + i) last.y else acc
        let acc := if i ≤ last.x then push acc (last.x - i) last.y else acc
        let acc := if last.y + i < 10 then push acc last.x (last.y + i) else acc
        if i ≤ last.y then push acc last.x (last.y - i) else acc)
      []
    cands ++ news

/-! ## Player and Game (`engine/player.rs`, `engine/game.rs`) -/

/-- Embeds `Player`: name, fleet (the five ships in `COMPOSITION` order), the
player's own shot-record grid, the strategy, and the human flag. -/
structure Player where
  name : String
  fleet : List Ship
  grid : Grid
  strategy : Strategy
  human : Bool
  deriving DecidableEq, Repr

/-- Embeds `Player::has_lost()`: the player's own fleet is fully sunk. -/
def hasLost (p : Player) : Bool :=
  fleetIsSunk p.fleet

/-- Embeds `Player::next_move()`: dispatch on the strategy.  `NoStrategy` yields no
move (the human); `RandomStrategy` draws a random cell; `SmartStrategy` runs
its search loop.  The outer `Option` is fuel exhaustion. -/
def playerNextMove (r : Nat → Nat) (fuel : Nat) (p : Player) (i : Nat) :
    Option (Option Cell × Player × Nat) :=
  match p.strategy with
  | .noStrategy => some (none, p, i)
  | .randomStrategy => some (some (cellRandomAt r i), p, i + 2)
  | .smartStrategy moves cands =>
    (smartNext r fuel moves cands i).map fun x =>
      (some x.1, { p with strategy := .smartStrategy x.2.1 x.2.2.1 }, x.2.2.2)

/-- Embeds `Player::attack(opponent, cell)`: the opponent's fleet resolves the hit,
and the attacker's own grid is marked `Hit` or `Miss` accordingly.  Returns
the index of the ship hit (if any), the updated attacker and the updated
opponent. -/
def attack (p opp : Player) (c : Cell) : Option Nat × Player × Player :=
  let (idx, fleet') := fleetHitAt opp.fleet c
  let p' := { p with grid := gridMark p.grid c (if idx.isSome then .hit else .miss) }
  (idx, p', { opp with fleet := fleet' })

/-- Embeds `Game`: the two players in their fixed order and the last computer move. -/
structure Game where
  players : List Player
  lastComputerMove : Option Cell
  deriving DecidableEq, Repr

/-- Embeds `Game::new()`. -/
def gameNew : Game := ⟨[], none⟩

/-- Embeds `Game::is_ready()`: two players and neither has lost. -/
def isReady (g : Game) : Bool :=
  g.players.length == 2 && !(g.players.any hasLost)

/-- Embeds `do_move(player, opposite, human_move)` from `engine/game.rs`: take the
player's strategy move when there is one (recording it as the round's
computer move), otherwise the externally supplied human move; apply the
attack; then check whether the attacked player has lost.  The attack's
ship-kind result is discarded, exactly as in the source. -/
def doMove (r : Nat → Nat) (fuel : Nat) (p opp : Player) (humanMove : Cell) (i : Nat) :
    Option (Bool × Option Cell × Player × Player × Nat) :=
  (playerNextMove r fuel p i).map fun (mv, p1, i1) =>
    let playerMove := mv.getD humanMove
    let (_, pa, oppa) := attack p1 opp playerMove
    (hasLost oppa, mv, pa, oppa, i1)

/-- Embeds `Game::play_turn(human_move)`: error when the game is not ready; otherwise
reset the last computer move, run `do_move` for the first player (returning
the winner immediately when the second player has lost, before the computer
move is recorded), record the first player's computer move if any, run
`do_move` for the second player likewise, and finally record its computer
move.  The result is `some winner_is_human` when the game ended, `none`
otherwise. -/
def playTurn (r : Nat → Nat) (fuel : Nat) (g : Game) (humanMove : Cell) (i : Nat) :
    Option (Except String (Option Bool) × Game × Nat) :=
  if isReady g then
    match g.players with
    | [p1, p2] =>
      (doMove r fuel p1 p2 humanMove i).bind fun (w1, m1, p1', p2', i') =>
        if w1 then some (.ok (some p1'.human), ⟨[p1', p2'], none⟩, i')
        else
          (doMove r fuel p2' p1' humanMove i').bind fun (w2, m2, p2'', p1'', i'') =>
            if w2 then some (.ok (some p2''.human), ⟨[p1'', p2''], m1⟩, i'')
            else
              some (.ok none, ⟨[p1'', p2''], match m2 with | some m => some m | none => m1⟩, i'')
    | _ => none
  else some (.error "Game is not ready or already over", g, i)

/-! ## Spec-side definitions for the overlap rule

These two definitions are written from the specification's words (not from the
source) so that the source's `is_overlapping` can be compared against them. -/

/-- Modelled from the spec: membership in the **one-cell-expanded** bounding
footprint of a ship — "a horizontal ship's bounding box extends one cell
left/right of its endpoints and one cell above/below its single row;
analogously for vertical", clamped to the board.  The endpoints of a
horizontal ship at `(x, y)` of size `n` are `x` and `x + n - 1`, so the box
spans `[x-1, x+n] × [y-1, y+1]`. -/
def specOneCellBox (s : Ship) (c : Cell) : Bool :=
  match s.orient with
  | .horizontal =>
    s.first.x - 1 ≤ c.x && c.x ≤ min (s.first.x + s.size) 9 &&
    s.first.y - 1 ≤ c.y && c.y ≤ min (s.first.y + 1) 9
  | .vertical =>
    s.first.y - 1 ≤ c.y && c.y ≤ min (s.first.y + s.size) 9 &&
    s.first.x - 1 ≤ c.x && c.x ≤ min (s.first.x + 1) 9

/-- Modelled from the spec: "true iff the one-cell-expanded bounding footprint
of this ship intersects any occupied cell of `other`". -/
def specOverlaps (s other : Ship) : Bool :=
  (occupiedCells other).any (specOneCellBox s)

/-- Chebyshev distance between two cells: a cell is "within one cell,
orthogonally or diagonally" of another exactly when this distance is ≤ 1. -/
def chebDist (c d : Cell) : Nat :=
  max (max (c.x - d.x) (d.x - c.x)) (max (c.y - d.y) (d.y - c.y))

/-- Modelled from the spec: the one-cell-border placement rule — no cell of
`a` lies within one cell (orthogonally or diagonally) of a cell of `b`. -/
def specSeparated (a b : Ship) : Bool :=
  (occupiedCells a).all fun ca => (occupiedCells b).all fun cb => 2 ≤ chebDist ca cb

/-- Concrete ships for the overlap counterexamples. -/
def shipDestHor : Ship := ⟨⟨0, 0⟩, 2, .horizontal, 3⟩

def shipDestVer : Ship := ⟨⟨3, 0⟩, 2, .vertical, 3⟩

def shipCruHor : Ship := ⟨⟨0, 5⟩, 3, .horizontal, 7⟩

def shipDestVer2 : Ship := ⟨⟨4, 5⟩, 2, .vertical, 3⟩

/-! ## Claim C2 -/

/-- Claim C2 (code bug).  The claim states that `Ship.is_overlapping(other)` is
true iff the **one-cell**-expanded bounding footprint of this ship intersects
an occupied cell of `other`; the doc comment of `is_overlapping` itself says
the ship's space is its cells "plus a one-cell border around them".  The code
instead scans up to `first + size + 1` along the orientation axis — **two**
cells beyond the far endpoint (`first + size - 1`).  Failing input: the
horizontal destroyer at (0,0) (cells (0,0),(1,0)) against the vertical
destroyer at (3,0) (cells (3,0),(3,1)): `is_overlapping` returns `true`
although the one-cell-expanded box `[0,2] × [0,1]` contains no cell of the
other ship. -/
theorem isOverlapping_extends_two_cells_beyond_endpoint :
    kindShip .destroyer ⟨0, 0⟩ .horizontal = some shipDestHor ∧
    kindShip .destroyer ⟨3, 0⟩ .vertical = some shipDestVer ∧
    isOverlapping shipDestHor shipDestVer = true ∧
    specOverlaps shipDestHor shipDestVer = false := by decide

/-! ## Claim C3 -/

/-- Claim C3 (code bug).  The claim states that ships placed respecting the
one-cell-border rule never report overlapping, and that `is_overlapping` is
symmetric.  Both fail, through the same off-by-one as C2: the horizontal
cruiser at (0,5) and the vertical destroyer at (4,5) have Chebyshev distance 2
between all their cells (the border rule holds), yet
`cruiser.is_overlapping(destroyer)` is `true` — and the reversed call is
`false`, refuting symmetry as well. -/
theorem isOverlapping_violates_border_rule_and_symmetry :
    kindShip .cruiser ⟨0, 5⟩ .horizontal = some shipCruHor ∧
    kindShip .destroyer ⟨4, 5⟩ .vertical = some shipDestVer2 ∧
    specSeparated shipCruHor shipDestVer2 = true ∧
    isOverlapping shipCruHor shipDestVer2 = true ∧
    isOverlapping shipDestVer2 shipCruHor = false := by decide

/-! ## Claim C4 -/

/-- Claim C4 (code bug).  The claim states that the random strategy always
returns some cell drawn uniformly over the full 10×10 board.  `next_move` does
always return a cell, but `Cell::random()` computes `random::<u8>() % MAX_X`
(i.e. modulo 9, not 10), so both coordinates always lie in `0..=8`: no output
of the random source ever yields a cell in column J (`x = 9`) or row 10
(`y = 9`), and the distribution over the reachable cells is not uniform either
(256 is not a multiple of 9).  This theorem shows the strategy's move for
every possible state of the random source stays within `0..=8` on both
axes. -/
theorem randomStrategy_never_reaches_column_J (r : Nat → Nat) (fuel i : Nat)
    (name : String) (fl : List Ship) (g : Grid) (hu : Bool) :
    playerNextMove r fuel ⟨name, fl, g, .randomStrategy, hu⟩ i =
      some (some (cellRandomAt r i), ⟨name, fl, g, .randomStrategy, hu⟩, i + 2) ∧
    (cellRandomAt r i).x ≤ 8 ∧ (cellRandomAt r i).y ≤ 8 := by
  refine ⟨rfl, ?_, ?_⟩ <;>
    · show _ % 9 ≤ 8
      omega

/-! ## Claim C5 -/

/-- Claim C5 (code bug).  The claim states that `Cell::from_str` accepts exactly
a letter A–J followed by digits denoting 1–10, and fails with `InvalidFormat`
on any string with extra characters.  The `from_str` doc comment likewise says
"No spaces or other characters are allowed".  But the digits are parsed with
`str::parse::<u8>()`, which accepts an optional leading `'+'`, so the input
`"A+5"` — which contains a non-digit character — parses successfully to the
cell (0, 4) instead of failing. -/
theorem cellFromStr_accepts_plus_sign :
    cellFromStr ['A', '+', '5'] = .ok ⟨0, 4⟩ := by decide

/-! ## Claim C8 -/

/-- Claim C8 (confirmed).  Label round-trip: for every board coordinate `c`
(both coordinates at most 9), parsing the `Display` output of `c` yields `c`
again. -/
theorem cellFromStr_formatCell_roundtrip (x y : Nat) (hx : x ≤ 9) (hy : y ≤ 9) :
    cellFromStr (formatCell ⟨x, y⟩) = .ok ⟨x, y⟩ := by
  have h : ∀ x' < 10, ∀ y' < 10,
      cellFromStr (formatCell ⟨x', y'⟩) = .ok ⟨x', y'⟩ := by decide
  exact h x (by omega) y (by omega)

/-- Witness for C8 at the corner cell J10. -/
theorem cellFromStr_formatCell_roundtrip_witness :
    (9 : Nat) ≤ 9 ∧ cellFromStr (formatCell ⟨9, 9⟩) = .ok ⟨9, 9⟩ :=
  ⟨by decide, cellFromStr_formatCell_roundtrip 9 9 (by decide) (by decide)⟩

/-! ## Claim C10 -/

/-- Claim C10 (confirmed).  When `Game::play_turn` is called while the game is
not ready, it returns the precondition error and the whole game state —
players and the recorded last computer move — is exactly as before the call
(the source checks `is_ready` before touching anything, including the
`last_computer_move` reset); the random source is not consumed either. -/
theorem playTurn_not_ready_leaves_game_unchanged (r : Nat → Nat) (fuel : Nat)
    (g : Game) (hm : Cell) (i : Nat) (h : isReady g = false) :
    playTurn r fuel g hm i =
      some (.error "Game is not ready or already over", g, i) := by
  unfold playTurn
  simp [h]

/-- Witness for C10 on the freshly created game. -/
theorem playTurn_not_ready_witness :
    isReady gameNew = false ∧
    playTurn (fun _ => 0) 0 gameNew ⟨0, 0⟩ 0 =
      some (.error "Game is not ready or already over", gameNew, 0) :=
  ⟨by decide, playTurn_not_ready_leaves_game_unchanged _ _ _ _ _ (by decide)⟩

/-! ## Claim C7: ship damage tracking -/

/-- A sequence of `hit_at` calls, keeping only the resulting ship. -/
def hitAll (s : Ship) (l : List Cell) : Ship :=
  l.foldl (fun t c => (hitAt t c).2) s

/-- The bit-OR loop of `get_ship_state` builds the low-`size` all-ones mask. -/
theorem getShipState_eq (n : Nat) : getShipState n = 2 ^ n - 1 := by
  induction n with
  | zero => rfl
  | succ n ih =>
    have hstep : getShipState (n + 1) = getShipState n ||| 2 ^ n := by
      unfold getShipState
      rw [List.range_succ, List.foldl_append]
      rfl
    rw [hstep, ih]
    refine Nat.eq_of_testBit_eq fun i => ?_
    simp only [Nat.testBit_or, Nat.testBit_two_pow_sub_one, Nat.testBit_two_pow]
    rcases Nat.lt_trichotomy i n with h | h | h
    · have h1 : i < n + 1 := by omega
      have h2 : n ≠ i := by omega
      simp [h, h1, h2]
    · subst h
      simp
    · have h1 : ¬ i < n := by omega
      have h2 : n ≠ i := by omega
      have h3 : ¬ i < n + 1 := by omega
      simp [h1, h2, h3]

/-- Lemma: `hit_at` never moves, resizes or reorients the ship. -/
theorem hitAt_geom (s : Ship) (c : Cell) :
    ((hitAt s c).2).first = s.first ∧ ((hitAt s c).2).size = s.size ∧
      ((hitAt s c).2).orient = s.orient := by
  unfold hitAt
  cases h : shipContains s c <;> simp

/-- Lemma: `contains` only reads the geometry, never the damage bitmask. -/
theorem shipContains_congr (s t : Ship) (hf : t.first = s.first)
    (hs : t.size = s.size) (ho : t.orient = s.orient) (c : Cell) :
    shipContains t c = shipContains s c := by
  unfold shipContains
  rw [hf, hs, ho]

theorem shipContains_hitAt (s : Ship) (d c : Cell) :
    shipContains ((hitAt s d).2) c = shipContains s c :=
  shipContains_congr s _ (hitAt_geom s d).1 (hitAt_geom s d).2.1 (hitAt_geom s d).2.2 c

/-- Lemma: `hitAll` geometry preservation. -/
theorem hitAll_geom (l : List Cell) (s : Ship) :
    (hitAll s l).first = s.first ∧ (hitAll s l).size = s.size ∧
      (hitAll s l).orient = s.orient := by
  induction l generalizing s with
  | nil => exact ⟨rfl, rfl, rfl⟩
  | cons c l ih =>
    have h1 := hitAt_geom s c
    have h2 := ih ((hitAt s c).2)
    exact ⟨h2.1.trans h1.1, h2.2.1.trans h1.2.1, h2.2.2.trans h1.2.2⟩

theorem shipContains_hitAll (l : List Cell) (s : Ship) (c : Cell) :
    shipContains (hitAll s l) c = shipContains s c :=
  shipContains_congr s _ (hitAll_geom l s).1 (hitAll_geom l s).2.1 (hitAll_geom l s).2.2 c

theorem occupiedCells_hitAll (l : List Cell) (s : Ship) :
    occupiedCells (hitAll s l) = occupiedCells s := by
  unfold occupiedCells
  rw [(hitAll_geom l s).1, (hitAll_geom l s).2.1, (hitAll_geom l s).2.2]

/-- A segment index returned by `contains` is below the ship size. -/
theorem shipContains_lt (s : Ship) (c : Cell) (b : Nat)
    (h : shipContains s c = some b) : b < s.size := by
  unfold shipContains at h
  cases s.orient <;> split at h <;> simp_all <;> omega

/-- Hitting a cell clears exactly its segment bit (for segment indexes below
8, which all real ships satisfy): after the `state &= !(1 << bit)` update the
bit reads as zero. -/
theorem hitAt_clears_bit (s : Ship) (c : Cell) (b : Nat)
    (h : shipContains s c = some b) (hb : b < 8) :
    ((hitAt s c).2).state.testBit b = false := by
  have hupd : (hitAt s c).2 = { s with state := s.state &&& (255 ^^^ (1 <<< b)) } := by
    unfold hitAt
    rw [h]
  rw [hupd]
  have hsl : (1 : Nat) <<< b = 2 ^ b := by
    rw [Nat.shiftLeft_eq, Nat.one_mul]
  have h255 : (255 : Nat).testBit b = true := by
    have he : (255 : Nat) = 2 ^ 8 - 1 := by norm_num
    rw [he, Nat.testBit_two_pow_sub_one]
    simpa using hb
  rw [show ({ s with state := s.state &&& (255 ^^^ (1 <<< b)) } : Ship).state
        = s.state &&& (255 ^^^ (1 <<< b)) from rfl,
      Nat.testBit_and, Nat.testBit_xor, hsl, Nat.testBit_two_pow_self, h255]
  simp

/-- A cleared bit stays cleared through any further hit. -/
theorem hitAt_keeps_false (s : Ship) (c : Cell) (i : Nat)
    (h : s.state.testBit i = false) :
    ((hitAt s c).2).state.testBit i = false := by
  unfold hitAt
  cases hc : shipContains s c with
  | none => simpa using h
  | some b => simp [Nat.testBit_and, h]

theorem hitAll_keeps_false (l : List Cell) (s : Ship) (i : Nat)
    (h : s.state.testBit i = false) :
    (hitAll s l).state.testBit i = false := by
  induction l generalizing s with
  | nil => exact h
  | cons c l ih => exact ih _ (hitAt_keeps_false s c i h)

/-- If some cell of the hit list maps to segment `b`, that bit ends cleared. -/
theorem hitAll_clears (l : List Cell) (s : Ship) (b : Nat) (hb : b < 8)
    (h : ∃ c ∈ l, shipContains s c = some b) :
    (hitAll s l).state.testBit b = false := by
  induction l generalizing s with
  | nil => exact absurd h (by simp)
  | cons c l ih =>
    rw [show hitAll s (c :: l) = hitAll ((hitAt s c).2) l from rfl]
    rcases h with ⟨d, hd, hcont⟩
    rcases List.mem_cons.mp hd with rfl | hdl
    · exact hitAll_keeps_false l _ b (hitAt_clears_bit s d b hcont hb)
    · exact ih ((hitAt s c).2) ⟨d, hdl, (shipContains_hitAt s c d).trans hcont⟩

/-- The footprint condition a successfully constructed ship satisfies. -/
def shipFits (s : Ship) : Prop :=
  match s.orient with
  | .horizontal => s.first.x + s.size - 1 ≤ 9 ∧ s.first.y ≤ 9
  | .vertical => s.first.y + s.size - 1 ≤ 9 ∧ s.first.x ≤ 9

/-- For a ship that fits the board, footprint membership and `contains`
agree: `occupied_cells` lists exactly the cells `contains` accepts, and the
`i`-th listed cell has segment index `i`. -/
theorem mem_occupied_iff (s : Ship) (hfit : shipFits s) (c : Cell) :
    c ∈ occupiedCells s ↔ (shipContains s c).isSome := by
  obtain ⟨⟨fx, fy⟩, n, or, st⟩ := s
  obtain ⟨cx, cy⟩ := c
  cases or <;> simp only [shipFits] at hfit <;>
    simp only [occupiedCells, List.mem_map, List.mem_range] <;>
    constructor
  · rintro ⟨dx, hdx, h⟩
    rw [cellBounded_of_le (by omega) (by omega), Cell.mk.injEq] at h
    simp only [shipContains]
    rw [if_pos ⟨by omega, by omega, by omega⟩]
    rfl
  · intro h
    simp only [shipContains] at h
    split at h
    · rename_i hcond
      refine ⟨cx - fx, by omega, ?_⟩
      rw [cellBounded_of_le (by omega) (by omega), Cell.mk.injEq]
      omega
    · simp at h
  · rintro ⟨dy, hdy, h⟩
    rw [cellBounded_of_le (by omega) (by omega), Cell.mk.injEq] at h
    simp only [shipContains]
    rw [if_pos ⟨by omega, by omega, by omega⟩]
    rfl
  · intro h
    simp only [shipContains] at h
    split at h
    · rename_i hcond
      refine ⟨cy - fy, by omega, ?_⟩
      rw [cellBounded_of_le (by omega) (by omega), Cell.mk.injEq]
      omega
    · simp at h

/-- Every segment index below the size is realised by a footprint cell. -/
theorem exists_cell_of_bit (s : Ship) (hfit : shipFits s) (b : Nat)
    (hb : b < s.size) :
    ∃ c ∈ occupiedCells s, shipContains s c = some b := by
  obtain ⟨⟨fx, fy⟩, n, or, st⟩ := s
  replace hb : b < n := hb
  cases or <;> simp only [shipFits] at hfit
  · refine ⟨⟨fx + b, fy⟩, ?_, ?_⟩
    · simp only [occupiedCells, List.mem_map, List.mem_range]
      exact ⟨b, hb, cellBounded_of_le (by omega) (by omega)⟩
    · simp only [shipContains]
      rw [if_pos ⟨by trivial, by omega, by omega⟩]
      simp
  · refine ⟨⟨fx, fy + b⟩, ?_, ?_⟩
    · simp only [occupiedCells, List.mem_map, List.mem_range]
      exact ⟨b, hb, cellBounded_of_le (by omega) (by omega)⟩
    · simp only [shipContains]
      rw [if_pos ⟨by trivial, by omega, by omega⟩]
      simp

/-- Facts delivered by a successful `ShipKind::ship` construction. -/
theorem kindShip_inv (k : ShipKind) (f : Cell) (o : ShipOrient) (s : Ship)
    (h : kindShip k f o = some s) :
    s.first = f ∧ s.size = k.size ∧ s.orient = o ∧
      s.state = 2 ^ k.size - 1 ∧ shipFits s ∧ s.size ≤ 8 := by
  cases o
  · simp only [kindShip, shipNew] at h
    split at h
    · rename_i hcond
      injection h with h
      subst h
      refine ⟨rfl, rfl, rfl, getShipState_eq _, ?_, ?_⟩
      · simp only [shipFits]
        omega
      · cases k <;> simp [ShipKind.size]
    · exact absurd h (by simp)
  · simp only [kindShip, shipNew] at h
    split at h
    · rename_i hcond
      injection h with h
      subst h
      refine ⟨rfl, rfl, rfl, getShipState_eq _, ?_, ?_⟩
      · simp only [shipFits]
        omega
      · cases k <;> simp [ShipKind.size]
    · exact absurd h (by simp)

/-- Claim C7 (confirmed).  For every well-formed ship (one successfully built by
`ShipKind::ship`), and from any damage state reachable by prior hits:
hitting every occupied cell at least once (in particular exactly once, in any
order) makes `is_sunk()` true; `hit_at` on a cell off the footprint returns
`false` and leaves the ship unchanged; and `hit_at` on a footprint cell
returns `true` and is idempotent — a second hit on the same cell returns
`true` again without changing the state further. -/
theorem ship_hitAt_spec (k : ShipKind) (f : Cell) (o : ShipOrient) (s : Ship)
    (h : kindShip k f o = some s) :
    (∀ l : List Cell, (∀ c ∈ occupiedCells s, c ∈ l) →
       isSunk (hitAll s l) = true) ∧
    (∀ (l : List Cell) (c : Cell), c ∉ occupiedCells s →
       hitAt (hitAll s l) c = (false, hitAll s l)) ∧
    (∀ (l : List Cell) (c : Cell), c ∈ occupiedCells s →
       (hitAt (hitAll s l) c).1 = true ∧
       hitAt (hitAt (hitAll s l) c).2 c = (true, (hitAt (hitAll s l) c).2)) := by
  obtain ⟨hf, hsz, ho, hst, hfit, h8⟩ := kindShip_inv k f o s h
  refine ⟨?_, ?_, ?_⟩
  · intro l hl
    simp only [isSunk, decide_eq_true_eq]
    refine Nat.eq_of_testBit_eq fun i => ?_
    rw [Nat.zero_testBit]
    by_cases hi : i < s.size
    · obtain ⟨c, hc, hcont⟩ := exists_cell_of_bit s hfit i hi
      exact hitAll_clears l s i (by omega) ⟨c, hl c hc, hcont⟩
    · apply hitAll_keeps_false
      rw [hst, Nat.testBit_two_pow_sub_one]
      simp only [decide_eq_false_iff_not]
      omega
  · intro l c hc
    have hnone : shipContains s c = none := by
      rcases ho' : shipContains s c with _ | b
      · rfl
      · exact absurd ((mem_occupied_iff s hfit c).mpr (by rw [ho']; rfl)) hc
    have hnone' : shipContains (hitAll s l) c = none :=
      (shipContains_hitAll l s c).trans hnone
    unfold hitAt
    rw [hnone']
  · intro l c hc
    obtain ⟨b, hb⟩ := Option.isSome_iff_exists.mp ((mem_occupied_iff s hfit c).mp hc)
    have hb1 : shipContains (hitAll s l) c = some b :=
      (shipContains_hitAll l s c).trans hb
    have hb2 : shipContains ((hitAt (hitAll s l) c).2) c = some b :=
      (shipContains_hitAt (hitAll s l) c c).trans hb1
    have hupd : (hitAt (hitAll s l) c).2 =
        { hitAll s l with
          state := (hitAll s l).state &&& (255 ^^^ (1 <<< b)) } := by
      unfold hitAt
      rw [hb1]
    constructor
    · unfold hitAt
      rw [hb1]
    · have hb2' : shipContains ({ hitAll s l with
          state := (hitAll s l).state &&& (255 ^^^ (1 <<< b)) } : Ship) c = some b := by
        rw [← hupd]
        exact hb2
      rw [hupd]
      unfold hitAt
      rw [hb2']
      dsimp only
      rw [Nat.and_assoc, Nat.and_self]

/-- Witness for C7 on the horizontal destroyer at the origin: hitting its two
cells sinks it; a miss at (5,5) changes nothing; the first footprint cell
reports a hit. -/
theorem ship_hitAt_spec_witness :
    kindShip .destroyer ⟨0, 0⟩ .horizontal = some shipDestHor ∧
    isSunk (hitAll shipDestHor [⟨0, 0⟩, ⟨1, 0⟩]) = true ∧
    hitAt (hitAll shipDestHor []) ⟨5, 5⟩ = (false, hitAll shipDestHor []) ∧
    (hitAt (hitAll shipDestHor []) ⟨0, 0⟩).1 = true :=
  have h := ship_hitAt_spec .destroyer ⟨0, 0⟩ .horizontal shipDestHor (by decide)
  ⟨by decide, h.1 [⟨0, 0⟩, ⟨1, 0⟩] (by decide), h.2.1 [] ⟨5, 5⟩ (by decide),
    (h.2.2 [] ⟨0, 0⟩ (by decide)).1⟩

/-! ## Claim C9: every producible cell stays on the board -/

/-- The cells producible through the public `Cell` constructors and mutators:
`new` (successful), `bounded`, `random`, `from_str` (successful), and the four
wrap-around moves. -/
inductive ReachableCell : Cell → Prop where
  | ofNew {x y : Nat} {c : Cell} : cellNew x y = .ok c → ReachableCell c
  | ofBounded (x y : Nat) : ReachableCell (cellBounded x y)
  | ofRandom (r : Nat → Nat) (i : Nat) : ReachableCell (cellRandomAt r i)
  | ofFromStr {s : List Char} {c : Cell} : cellFromStr s = .ok c → ReachableCell c
  | ofMoveLeft {c : Cell} : ReachableCell c → ReachableCell (moveLeft c)
  | ofMoveRight {c : Cell} : ReachableCell c → ReachableCell (moveRight c)
  | ofMoveUp {c : Cell} : ReachableCell c → ReachableCell (moveUp c)
  | ofMoveDown {c : Cell} : ReachableCell c → ReachableCell (moveDown c)

theorem cellNew_ok_le {x y : Nat} {c : Cell} (h : cellNew x y = .ok c) :
    c.x ≤ 9 ∧ c.y ≤ 9 := by
  unfold cellNew maxX maxY at h
  split at h
  · split at h <;> exact absurd h (by simp)
  · split at h
    · exact absurd h (by simp)
    · injection h with h
      subst h
      exact ⟨show x ≤ 9 by omega, show y ≤ 9 by omega⟩

theorem cellFromStr_ok_le {s : List Char} {c : Cell} (h : cellFromStr s = .ok c) :
    c.x ≤ 9 ∧ c.y ≤ 9 := by
  cases s with
  | nil => exact absurd h (by simp [cellFromStr])
  | cons xc rest =>
    simp only [cellFromStr] at h
    split at h
    · exact absurd h (by simp)
    · split at h
      · exact absurd h (by simp)
      · injection h with h
        subst h
        exact cellBounded_le _ _

/-- Claim C9 (confirmed).  Every cell producible through the public constructors
and mutators has both coordinates at most 9; consequently, on every
well-formed 10×10 grid, `Grid::at` reads within bounds and `Grid::mark`
actually updates the addressed cell (the Rust `cells[y][x]` indexing cannot
panic). -/
theorem reachableCell_on_board {c : Cell} (h : ReachableCell c) :
    c.x ≤ 9 ∧ c.y ≤ 9 ∧
    ∀ (g : Grid) (st : CellState), gridWF g →
      (gridAt? g c).isSome ∧ gridAt? (gridMark g c st) c = some st := by
  have hb : c.x ≤ 9 ∧ c.y ≤ 9 := by
    induction h with
    | ofNew h => exact cellNew_ok_le h
    | ofBounded x y => exact cellBounded_le x y
    | ofRandom r i =>
      constructor <;>
        · simp only [cellRandomAt, maxX, maxY]
          omega
    | ofFromStr h => exact cellFromStr_ok_le h
    | ofMoveLeft _ ih =>
      unfold moveLeft maxX
      split
      · exact ⟨show (9 : Nat) ≤ 9 by omega, ih.2⟩
      · exact ⟨show _ - 1 ≤ 9 by omega, ih.2⟩
    | ofMoveRight _ ih =>
      unfold moveRight maxX
      split
      · exact ⟨show (0 : Nat) ≤ 9 by omega, ih.2⟩
      · rename_i hne
        refine ⟨le_trans (min_le_left _ _) ?_, ih.2⟩
        have h1 := ih.1
        omega
    | ofMoveUp _ ih =>
      unfold moveUp maxY
      split
      · exact ⟨ih.1, show (9 : Nat) ≤ 9 by omega⟩
      · exact ⟨ih.1, show _ - 1 ≤ 9 by omega⟩
    | ofMoveDown _ ih =>
      unfold moveDown maxY
      split
      · exact ⟨ih.1, show (0 : Nat) ≤ 9 by omega⟩
      · rename_i hne
        refine ⟨ih.1, le_trans (min_le_left _ _) ?_⟩
        have h2 := ih.2
        omega
  refine ⟨hb.1, hb.2, ?_⟩
  intro g st hwf
  have hlen : g.cells.length = 10 := hwf.1
  have hy : c.y < g.cells.length := by omega
  have hrow : g.cells[c.y]? = some g.cells[c.y] := List.getElem?_eq_getElem hy
  have hrl : (g.cells[c.y]).length = 10 :=
    hwf.2 _ (List.getElem_mem hy)
  have hx : c.x < (g.cells[c.y]).length := by omega
  constructor
  · have hat : gridAt? g c = some (g.cells[c.y][c.x]) := by
      unfold gridAt?
      rw [hrow]
      show g.cells[c.y][c.x]? = _
      rw [List.getElem?_eq_getElem hx]
    rw [hat]
    rfl
  · have hmark : gridMark g c st = ⟨g.cells.set c.y (g.cells[c.y].set c.x st)⟩ := by
      unfold gridMark
      rw [hrow]
    rw [hmark]
    unfold gridAt?
    rw [List.getElem?_set_self (by simpa using hy)]
    show (g.cells[c.y].set c.x st)[c.x]? = some st
    rw [List.getElem?_set_self hx]

/-- Witness for C9: the clamped cell `bounded(12, 3) = (9, 3)` is safe on the
default grid. -/
theorem reachableCell_on_board_witness :
    (cellBounded 12 3).x ≤ 9 ∧ (cellBounded 12 3).y ≤ 9 ∧
    (gridAt? defaultGrid (cellBounded 12 3)).isSome ∧
    gridAt? (gridMark defaultGrid (cellBounded 12 3) .hit) (cellBounded 12 3) =
      some .hit :=
  have h := reachableCell_on_board (ReachableCell.ofBounded 12 3)
  ⟨h.1, h.2.1, h.2.2 defaultGrid .hit (by decide)⟩

/-! ## Claims C6, C1: the turn engine -/

/-- Inversion of `do_move`: the returned components are the strategy move, the
players after the attack, and the defeat flag of the just-attacked player. -/
theorem doMove_inv (r : Nat → Nat) (fuel : Nat) (p opp : Player) (hm : Cell)
    (i : Nat) (w : Bool) (m : Option Cell) (p' opp' : Player) (i' : Nat)
    (h : doMove r fuel p opp hm i = some (w, m, p', opp', i')) :
    ∃ mv px ix, playerNextMove r fuel p i = some (mv, px, ix) ∧
      m = mv ∧ i' = ix ∧
      p' = (attack px opp (mv.getD hm)).2.1 ∧
      opp' = (attack px opp (mv.getD hm)).2.2 ∧
      w = hasLost opp' := by
  unfold doMove at h
  rcases Option.map_eq_some'.mp h with ⟨⟨mv, px, ix⟩, hnm, heq⟩
  simp only [Prod.mk.injEq] at heq
  obtain ⟨hw, hm2, hpa, hopp, hi⟩ := heq
  exact ⟨mv, px, ix, hnm, hm2.symm, hi.symm, hpa.symm, hopp.symm, by
    rw [← hw, hopp]⟩

/-- The `attack` call never touches the attacker's or defender's strategy. -/
theorem attack_strategy (p opp : Player) (c : Cell) :
    (attack p opp c).2.1.strategy = p.strategy ∧
    (attack p opp c).2.2.strategy = opp.strategy := by
  unfold attack
  exact ⟨rfl, rfl⟩

/-- Lemma: `next_move` leaves every non-strategy component of the player unchanged. -/
theorem playerNextMove_frame (r : Nat → Nat) (fuel : Nat) (p : Player) (i : Nat)
    (mv : Option Cell) (px : Player) (ix : Nat)
    (h : playerNextMove r fuel p i = some (mv, px, ix)) :
    px.name = p.name ∧ px.fleet = p.fleet ∧ px.grid = p.grid ∧
      px.human = p.human := by
  unfold playerNextMove at h
  split at h
  · injection h with h
    simp only [Prod.mk.injEq] at h
    obtain ⟨-, h2, -⟩ := h
    rw [← h2]
    exact ⟨rfl, rfl, rfl, rfl⟩
  · injection h with h
    simp only [Prod.mk.injEq] at h
    obtain ⟨-, h2, -⟩ := h
    rw [← h2]
    exact ⟨rfl, rfl, rfl, rfl⟩
  · rcases Option.map_eq_some'.mp h with ⟨x, -, heq⟩
    simp only [Prod.mk.injEq] at heq
    obtain ⟨-, h2, -⟩ := heq
    rw [← h2]
    exact ⟨rfl, rfl, rfl, rfl⟩

/-- The exhaustive run of `play_turn` over the outcomes of the two `do_move`
calls: early return after the first attack when the second player has lost
(recording no computer move), otherwise the second attack with its own check,
the first player's computer move recorded before it and the second player's
overwriting it at the end. -/
theorem playTurn_run (r : Nat → Nat) (fuel : Nat) (g : Game) (hm : Cell) (i : Nat)
    (p1 p2 p1' p2' : Player) (w1 : Bool) (m1 : Option Cell) (i' : Nat)
    (hready : isReady g = true)
    (hp : g.players = [p1, p2])
    (h1 : doMove r fuel p1 p2 hm i = some (w1, m1, p1', p2', i')) :
    (w1 = true →
      playTurn r fuel g hm i =
        some (.ok (some p1'.human), ⟨[p1', p2'], none⟩, i')) ∧
    (w1 = false → ∀ (w2 : Bool) (m2 : Option Cell) (p2'' p1'' : Player) (i'' : Nat),
      doMove r fuel p2' p1' hm i' = some (w2, m2, p2'', p1'', i'') →
      (w2 = true →
        playTurn r fuel g hm i =
          some (.ok (some p2''.human), ⟨[p1'', p2''], m1⟩, i'')) ∧
      (w2 = false →
        playTurn r fuel g hm i =
          some (.ok none,
            ⟨[p1'', p2''], match m2 with | some m => some m | none => m1⟩, i''))) := by
  constructor
  · intro hw1
    unfold playTurn
    rw [hready, hp]
    dsimp only
    rw [h1]
    simp only [Option.some_bind]
    rw [hw1]
    simp
  · intro hw1 w2 m2 p2'' p1'' i'' h2
    constructor
    · intro hw2'
      unfold playTurn
      rw [hready, hp]
      dsimp only
      rw [h1]
      simp only [Option.some_bind]
      rw [hw1]
      simp only [Bool.false_eq_true, if_false]
      rw [h2]
      simp only [Option.some_bind]
      rw [hw2']
      simp
    · intro hw2'
      unfold playTurn
      rw [hready, hp]
      dsimp only
      rw [h1]
      simp only [Option.some_bind]
      rw [hw1]
      simp only [Bool.false_eq_true, if_false]
      rw [h2]
      simp only [Option.some_bind]
      rw [hw2']
      simp

/-- Claim C6 (confirmed).  In the Ready state `play_turn` performs one attack
per player in the fixed order `players[0]`, `players[1]`.  The flag returned
by each `do_move` is exactly `has_lost` of the just-attacked player, checked
immediately after that individual attack; when it is set after the first
attack, `play_turn` returns at once with `Some(attacker.is_human())` and the
final state shows the second player never attacked (the players are exactly
the two produced by the first `do_move`); otherwise the second attack runs
and is checked the same way. -/
theorem playTurn_checks_defeat_after_each_attack
    (r : Nat → Nat) (fuel : Nat) (g : Game) (hm : Cell) (i : Nat)
    (p1 p2 p1' p2' : Player) (w1 : Bool) (m1 : Option Cell) (i' : Nat)
    (hready : isReady g = true)
    (hp : g.players = [p1, p2])
    (h1 : doMove r fuel p1 p2 hm i = some (w1, m1, p1', p2', i')) :
    w1 = hasLost p2' ∧
    (w1 = true →
      playTurn r fuel g hm i =
        some (.ok (some p1'.human), ⟨[p1', p2'], none⟩, i')) ∧
    (w1 = false → ∀ (w2 : Bool) (m2 : Option Cell) (p2'' p1'' : Player) (i'' : Nat),
      doMove r fuel p2' p1' hm i' = some (w2, m2, p2'', p1'', i'') →
      w2 = hasLost p1'' ∧
      (w2 = true →
        playTurn r fuel g hm i =
          some (.ok (some p2''.human), ⟨[p1'', p2''], m1⟩, i'')) ∧
      (w2 = false →
        playTurn r fuel g hm i =
          some (.ok none,
            ⟨[p1'', p2''], match m2 with | some m => some m | none => m1⟩, i''))) := by
  obtain ⟨mv, px, ix, hnm, hm1, hi, hp', hopp', hw⟩ :=
    doMove_inv r fuel p1 p2 hm i w1 m1 p1' p2' i' h1
  have hrun := playTurn_run r fuel g hm i p1 p2 p1' p2' w1 m1 i' hready hp h1
  refine ⟨hw, hrun.1, ?_⟩
  intro hw1 w2 m2 p2'' p1'' i'' h2
  obtain ⟨mv2, px2, ix2, hnm2, hm2', hi2, hp2', hopp2', hw2⟩ :=
    doMove_inv r fuel p2' p1' hm i' w2 m2 p2'' p1'' i'' h2
  exact ⟨hw2, (hrun.2 hw1 w2 m2 p2'' p1'' i'' h2).1,
    (hrun.2 hw1 w2 m2 p2'' p1'' i'' h2).2⟩

/-! ### Concrete game fixtures -/

/-- The all-zero random stream. -/
def rngZero : Nat → Nat := fun _ => 0

/-- A fleet laid out on rows 0, 2, 4, 6, 8, horizontally from column 0, in
`COMPOSITION` order, fully intact. -/
def fleetRows : List Ship :=
  [⟨⟨0, 0⟩, 5, .horizontal, 31⟩, ⟨⟨0, 2⟩, 4, .horizontal, 15⟩,
   ⟨⟨0, 4⟩, 3, .horizontal, 7⟩, ⟨⟨0, 6⟩, 3, .horizontal, 7⟩,
   ⟨⟨0, 8⟩, 2, .horizontal, 3⟩]

/-- The same fleet after every cell but the destroyer's second cell (1,8) has
been hit. -/
def fleetRowsDamaged : List Ship :=
  [⟨⟨0, 0⟩, 5, .horizontal, 0⟩, ⟨⟨0, 2⟩, 4, .horizontal, 0⟩,
   ⟨⟨0, 4⟩, 3, .horizontal, 0⟩, ⟨⟨0, 6⟩, 3, .horizontal, 0⟩,
   ⟨⟨0, 8⟩, 2, .horizontal, 2⟩]

/-- The same fleet fully sunk. -/
def fleetRowsSunk : List Ship :=
  [⟨⟨0, 0⟩, 5, .horizontal, 0⟩, ⟨⟨0, 2⟩, 4, .horizontal, 0⟩,
   ⟨⟨0, 4⟩, 3, .horizontal, 0⟩, ⟨⟨0, 6⟩, 3, .horizontal, 0⟩,
   ⟨⟨0, 8⟩, 2, .horizontal, 0⟩]

def humanP6 : Player := ⟨"One", fleetRows, defaultGrid, .noStrategy, true⟩

def victimP6 : Player := ⟨"Two", fleetRowsDamaged, defaultGrid, .noStrategy, true⟩

def game6 : Game := ⟨[humanP6, victimP6], none⟩

def humanP6' : Player :=
  ⟨"One", fleetRows, gridMark defaultGrid ⟨1, 8⟩ .hit, .noStrategy, true⟩

def victimP6' : Player := ⟨"Two", fleetRowsSunk, defaultGrid, .noStrategy, true⟩

/-- Witness for C6: with the second player one hit from defeat, the human
move (1,8) ends the round immediately — the defeated player's attack is
skipped and the attacker is reported as the winner. -/
theorem playTurn_checks_defeat_witness :
    isReady game6 = true ∧
    playTurn rngZero 1 game6 ⟨1, 8⟩ 0 =
      some (.ok (some true), ⟨[humanP6', victimP6'], none⟩, 0) :=
  have h := playTurn_checks_defeat_after_each_attack rngZero 1 game6 ⟨1, 8⟩ 0
    humanP6 victimP6 humanP6' victimP6' true none 0 (by decide) rfl (by decide)
  ⟨by decide, h.2.1 rfl⟩

/-! ## Claim C1 -/

/-- Claim C1 (corrected).  What `play_turn` actually does with a strategy move:
the move delivered by `next_move` is recorded as the last computer move only
when the round continues past it — a winning strategy move is **not**
recorded (the early return precedes the recording), and the second player's
strategy move overwrites the first's at the end of a full round.  Moreover
`notify_hit` is never invoked by the engine: each player's strategy state
after the turn is exactly the one its own `next_move` call produced (the
defender's strategy is untouched), regardless of whether the move hit a
ship. -/
theorem playTurn_strategy_move_recording
    (r : Nat → Nat) (fuel : Nat) (g : Game) (hm : Cell) (i : Nat)
    (p1 p2 p1' p2' : Player) (w1 : Bool) (m1 : Option Cell) (i' : Nat)
    (hready : isReady g = true)
    (hp : g.players = [p1, p2])
    (h1 : doMove r fuel p1 p2 hm i = some (w1, m1, p1', p2', i')) :
    (∀ (mv : Option Cell) (px : Player) (ix : Nat),
       playerNextMove r fuel p1 i = some (mv, px, ix) →
       m1 = mv ∧ p1'.strategy = px.strategy) ∧
    p2'.strategy = p2.strategy ∧
    (w1 = true →
       playTurn r fuel g hm i =
         some (.ok (some p1'.human), ⟨[p1', p2'], none⟩, i')) ∧
    (w1 = false → ∀ (w2 : Bool) (m2 : Option Cell) (p2'' p1'' : Player) (i'' : Nat),
       doMove r fuel p2' p1' hm i' = some (w2, m2, p2'', p1'', i'') →
       p1''.strategy = p1'.strategy ∧
       (∀ (mv2 : Option Cell) (px2 : Player) (ix2 : Nat),
          playerNextMove r fuel p2' i' = some (mv2, px2, ix2) →
          m2 = mv2 ∧ p2''.strategy = px2.strategy) ∧
       (w2 = true →
          playTurn r fuel g hm i =
            some (.ok (some p2''.human), ⟨[p1'', p2''], m1⟩, i'')) ∧
       (w2 = false →
          playTurn r fuel g hm i =
            some (.ok none,
              ⟨[p1'', p2''], match m2 with | some m => some m | none => m1⟩, i''))) := by
  obtain ⟨mv, px, ix, hnm, hm1, hi, hp', hopp', hw⟩ :=
    doMove_inv r fuel p1 p2 hm i w1 m1 p1' p2' i' h1
  have hrun := playTurn_run r fuel g hm i p1 p2 p1' p2' w1 m1 i' hready hp h1
  refine ⟨?_, ?_, hrun.1, ?_⟩
  · intro mv' px' ix' hnm'
    rw [hnm] at hnm'
    have he := Option.some.inj hnm'
    simp only [Prod.mk.injEq] at he
    obtain ⟨emv, epx, -⟩ := he
    refine ⟨by rw [hm1, emv], ?_⟩
    rw [hp', (attack_strategy px p2 (mv.getD hm)).1, epx]
  · rw [hopp']
    exact (attack_strategy px p2 (mv.getD hm)).2
  · intro hw1 w2 m2 p2'' p1'' i'' h2
    obtain ⟨mv2, px2, ix2, hnm2, hm2', hi2, hp2', hopp2', hw2⟩ :=
      doMove_inv r fuel p2' p1' hm i' w2 m2 p2'' p1'' i'' h2
    refine ⟨?_, ?_, (hrun.2 hw1 w2 m2 p2'' p1'' i'' h2).1,
      (hrun.2 hw1 w2 m2 p2'' p1'' i'' h2).2⟩
    · rw [hopp2']
      exact (attack_strategy px2 p1' (mv2.getD hm)).2
    · intro mv2' px2' ix2' hnm2'
      rw [hnm2] at hnm2'
      have he := Option.some.inj hnm2'
      simp only [Prod.mk.injEq] at he
      obtain ⟨emv, epx, -⟩ := he
      refine ⟨by rw [hm2', emv], ?_⟩
      rw [hp2', (attack_strategy px2 p1' (mv2.getD hm)).1, epx]

/-- The computer player of the C1 counterexample: smart strategy whose
candidate stack holds the winning cell (1,8). -/
def compC1 : Player :=
  ⟨"Computer", fleetRows, defaultGrid, .smartStrategy [] [⟨1, 8⟩], false⟩

def humanC1 : Player := ⟨"Human", fleetRowsDamaged, defaultGrid, .noStrategy, true⟩

/-- The C1 counterexample game: the computer moves first and its strategy
move will sink the human's last ship cell. -/
def gameC1 : Game := ⟨[compC1, humanC1], none⟩

/-- Counterexample to C1 as stated.  In `gameC1` the computer's move (1,8)
comes from its strategy (visible in the move history `[⟨1,8⟩]` afterwards) and
hits — indeed sinks — the destroyer, ending the game.  Yet after the turn the
recorded last computer move is `none` (the claim requires `some ⟨1,8⟩`), and
the strategy's candidate stack is exactly the popped one, `[]`, although
`SmartStrategy::notify_hit(Destroyer)` would have pushed the neighbours of
(1,8) — as the last conjunct shows, it produces a non-empty stack.  So neither
"the move is recorded" nor "`notify_hit` is invoked before the turn completes"
holds at this input. -/
theorem playTurn_strategy_move_cex :
    (playTurn rngZero 2 gameC1 ⟨9, 9⟩ 0).map
        (fun t => (t.1, t.2.1.lastComputerMove,
          t.2.1.players.head?.map Player.strategy)) =
      some (.ok (some false), none, some (.smartStrategy [⟨1, 8⟩] [])) ∧
    smartNotifyHit .destroyer [⟨1, 8⟩] [] ≠ [] := by
  constructor
  · decide
  · decide

/-- Witness for C1 (amended) on a full round: the computer (moving first, its
candidate (9,9) a miss against the intact human fleet) has its move recorded,
the human answers at (0,0), and the round ends with no winner and
`last_computer_move = (9,9)`. -/
def compW1 : Player :=
  ⟨"Computer", fleetRows, defaultGrid, .smartStrategy [] [⟨9, 9⟩], false⟩

def humanW1 : Player := ⟨"Human", fleetRows, defaultGrid, .noStrategy, true⟩

def gameW1 : Game := ⟨[compW1, humanW1], none⟩

/-- The computer after its own move: history updated, stack popped, miss
marked at (9,9). -/
def compW1' : Player :=
  ⟨"Computer", fleetRows, gridMark defaultGrid ⟨9, 9⟩ .miss,
    .smartStrategy [⟨9, 9⟩] [], false⟩

/-- The computer after also being attacked at (0,0): carrier bit 0 cleared. -/
def compW1'' : Player :=
  ⟨"Computer",
    [⟨⟨0, 0⟩, 5, .horizontal, 30⟩, ⟨⟨0, 2⟩, 4, .horizontal, 15⟩,
     ⟨⟨0, 4⟩, 3, .horizontal, 7⟩, ⟨⟨0, 6⟩, 3, .horizontal, 7⟩,
     ⟨⟨0, 8⟩, 2, .horizontal, 3⟩],
    gridMark defaultGrid ⟨9, 9⟩ .miss, .smartStrategy [⟨9, 9⟩] [], false⟩

/-- The human after answering with a hit at (0,0). -/
def humanW1' : Player :=
  ⟨"Human", fleetRows, gridMark defaultGrid ⟨0, 0⟩ .hit, .noStrategy, true⟩

theorem playTurn_strategy_move_witness :
    playTurn rngZero 2 gameW1 ⟨0, 0⟩ 0 =
      some (.ok none, ⟨[compW1'', humanW1'], some ⟨9, 9⟩⟩, 0) :=
  have h := playTurn_strategy_move_recording rngZero 2 gameW1 ⟨0, 0⟩ 0
    compW1 humanW1 compW1' humanW1 false (some ⟨9, 9⟩) 0 (by decide) rfl (by decide)
  (h.2.2.2 rfl false none humanW1' compW1'' 0 (by decide)).2.2.2 rfl

end Naval
